import Mathlib

/-
Verification development for the chart-rendering engine of the
COS30049_AUG2025_GROUP15 seasonal-forecasting dashboard.

The repository's chart pages (src/src/RainfallD3Page.js,
src/src/TrendsD3Page.js and the temperaturechartKJ variant of the
rainfall page) compose the d3 library's scales, zoom behaviour and
bisector into a grouped bar chart with zoom/pan and a multi-series line
chart with hover resolution.  This file gives a shallow embedding of
those pipelines over the rationals and proves the specified properties
about them.

The d3 library itself is an external dependency that is not part of the
repository sources, so the small d3 kernel used here (linear scales,
band scales, zoom transforms, the bisector, grouping) is modelled from
the spec's description of those primitives together with d3's documented
semantics; everything layered on top of it is translated directly from
the page sources.
-/

namespace D3

/-- Modelled from the spec: a d3 continuous (linear) scale, "positional
scale mapping a numeric interval linearly to a pixel interval".  The d3
library is not part of the repository sources.  `d0`/`d1` are the domain
endpoints and `r0`/`r1` the range endpoints. -/
structure LinearScale where
  d0 : ℚ
  d1 : ℚ
  r0 : ℚ
  r1 : ℚ
deriving DecidableEq

/-- Application of a linear scale: linear interpolation from the domain
interval onto the range interval. -/
def LinearScale.apply (s : LinearScale) (v : ℚ) : ℚ :=
  s.r0 + (v - s.d0) * (s.r1 - s.r0) / (s.d1 - s.d0)

/-- Inversion of a linear scale: linear interpolation from the range
interval back onto the domain interval. -/
def LinearScale.invert (s : LinearScale) (p : ℚ) : ℚ :=
  s.d0 + (p - s.r0) * (s.d1 - s.d0) / (s.r1 - s.r0)

/-- Modelled from the spec: a d3 band scale, "positional scale mapping a
finite ordered category set to contiguous, padded pixel intervals".
Fields follow d3-scale's band scale: an ordered category domain, range
endpoints, inner/outer padding fractions and the align factor (d3's
default align is 1/2; `.padding(p)` sets both paddings to `p`). -/
structure BandScale (α : Type) where
  domain : List α
  r0 : ℚ
  r1 : ℚ
  pInner : ℚ
  pOuter : ℚ
  align : ℚ
deriving DecidableEq

/-- Lower end of the band scale's range (d3 swaps the endpoints when the
range is given in descending order). -/
def BandScale.rlo {α : Type} (b : BandScale α) : ℚ :=
  if b.r1 < b.r0 then b.r1 else b.r0

/-- Upper end of the band scale's range. -/
def BandScale.rhi {α : Type} (b : BandScale α) : ℚ :=
  if b.r1 < b.r0 then b.r0 else b.r1

/-- Step between consecutive band starts, as computed by d3's
`rescale`: `(stop - start) / max(1, n - paddingInner + paddingOuter*2)`. -/
def BandScale.stepQ {α : Type} (b : BandScale α) : ℚ :=
  (b.rhi - b.rlo) / max 1 ((b.domain.length : ℚ) - b.pInner + b.pOuter * 2)

/-- Width of one band: `step * (1 - paddingInner)`. -/
def BandScale.bandwidth {α : Type} (b : BandScale α) : ℚ :=
  b.stepQ * (1 - b.pInner)

/-- Pixel position of the first band:
`start + (stop - start - step * (n - paddingInner)) * align`. -/
def BandScale.bandStart {α : Type} (b : BandScale α) : ℚ :=
  b.rlo + (b.rhi - b.rlo - b.stepQ * ((b.domain.length : ℚ) - b.pInner)) * b.align

/-- Pixel position of the band at domain index `i` (d3 reverses the
position list when the range is descending). -/
def BandScale.posIdx {α : Type} (b : BandScale α) (i : ℕ) : ℚ :=
  b.bandStart + b.stepQ * ((if b.r1 < b.r0 then b.domain.length - 1 - i else i : ℕ) : ℚ)

/-- Pixel position of a category: `none` for a label outside the domain
(d3 band scales return undefined there). -/
def BandScale.pos {α : Type} [DecidableEq α] (b : BandScale α) (lbl : α) : Option ℚ :=
  (b.domain.findIdx? (fun a => decide (a = lbl))).map b.posIdx

/-- Modelled from the spec: the d3 zoom transform, "ViewportTransform:
scale factor k, translateX, translateY; identity by default". -/
structure ZoomTransform where
  k : ℚ
  x : ℚ
  y : ℚ
deriving DecidableEq

/-- Identity transform `d3.zoomIdentity`. -/
def zoomIdentity : ZoomTransform := ⟨1, 0, 0⟩

/-- Horizontal application of the transform: `transform.applyX(x) = x * k + this.x`. -/
def ZoomTransform.applyX (t : ZoomTransform) (p : ℚ) : ℚ := p * t.k + t.x

/-- Vertical application of the transform: `transform.applyY(y) = y * k + this.y`. -/
def ZoomTransform.applyY (t : ZoomTransform) (p : ℚ) : ℚ := p * t.k + t.y

/-- Horizontal inversion of the transform: `(x - this.x) / k`. -/
def ZoomTransform.invertX (t : ZoomTransform) (p : ℚ) : ℚ := (p - t.x) / t.k

/-- Vertical inversion of the transform: `(y - this.y) / k`. -/
def ZoomTransform.invertY (t : ZoomTransform) (p : ℚ) : ℚ := (p - t.y) / t.k

/-- Translation of a transform, d3's `transform.translate(x, y)`:
a new transform with the same `k` and shifted origin. -/
def ZoomTransform.translate (t : ZoomTransform) (a b : ℚ) : ZoomTransform :=
  ⟨t.k, t.x + t.k * a, t.y + t.k * b⟩

/-- Vertical rescaling of a continuous scale, d3's
`transform.rescaleY(y) = y.copy().domain(y.range().map(t.invertY).map(y.invert))`:
the range is kept and the domain is pulled back through the transform. -/
def ZoomTransform.rescaleY (t : ZoomTransform) (s : LinearScale) : LinearScale :=
  ⟨s.invert (t.invertY s.r0), s.invert (t.invertY s.r1), s.r0, s.r1⟩

/-- Insertion of one element into the bucket list used by `groupBy`:
the element is appended to the bucket of its key, preserving the
first-encounter order of keys (d3.group / InternMap semantics). -/
def addToGroup {α κ : Type} [DecidableEq κ] (k : κ) (a : α) :
    List (κ × List α) → List (κ × List α)
  | [] => [(k, [a])]
  | (k₂, as) :: rest =>
      if k₂ = k then (k₂, as ++ [a]) :: rest else (k₂, as) :: addToGroup k a rest

/-- Modelled from the spec: `d3.group(data, key)` groups a list into
buckets keyed by `key`, keys ordered by first encounter and each bucket
keeping input order. -/
def groupBy {α κ : Type} [DecidableEq κ] (key : α → κ) (l : List α) : List (κ × List α) :=
  l.foldl (fun acc a => addToGroup (key a) a acc) []

/-- Maximum of a list of rationals in the manner of `d3.max`: `none` on
an empty list. -/
def d3max : List ℚ → Option ℚ
  | [] => none
  | a :: rest => some (rest.foldl max a)

/-- JavaScript `Math.round`: round half toward positive infinity,
`Math.round(x) = floor(x + 1/2)`. -/
def jsRound (q : ℚ) : ℤ := ⌊q + 1 / 2⌋

/-- Fuelled version of d3's `bisectLeft` binary-search loop
(`while lo < hi: mid = (lo+hi)>>>1; if a[mid] < x then lo = mid+1 else hi = mid`).
The fuel only bounds the iteration count; `hi - lo` iterations always
suffice because the interval halves. -/
def bisectLeftAux (a : List ℚ) (x : ℚ) : ℕ → ℕ → ℕ → ℕ
  | 0, lo, _ => lo
  | fuel + 1, lo, hi =>
      if lo < hi then
        let mid := lo + (hi - lo) / 2
        if a.getD mid 0 < x then bisectLeftAux a x fuel (mid + 1) hi
        else bisectLeftAux a x fuel lo mid
      else lo

/-- Binary search for the insertion point of `x` in the sorted list `a`
restricted to indices `[lo, hi)`, as in d3-array's `bisectLeft`. -/
def bisectLeft (a : List ℚ) (x : ℚ) (lo hi : ℕ) : ℕ :=
  bisectLeftAux a x (hi - lo) lo hi

/-- Index of a value nearest to `x` in the sorted list `a`, as computed
by `d3.bisector(accessor).center`: the left insertion point among the
first `n - 1` elements, stepped one position left when the left
neighbour is strictly closer. -/
def bisectCenter (a : List ℚ) (x : ℚ) : ℕ :=
  let i := bisectLeft a x 0 (a.length - 1)
  if 0 < i ∧ x - a.getD i 0 < a.getD (i - 1) 0 - x then i - 1 else i

end D3

namespace Rainfall

open D3

/-- Month constant list of RainfallD3Page.js (`MONTHS`): numeric value
paired with the axis label. -/
def MONTHS : List (ℕ × String) :=
  [(1, "Jan"), (2, "Feb"), (3, "Mar"), (4, "Apr"), (5, "May"), (6, "Jun"),
   (7, "Jul"), (8, "Aug"), (9, "Sep"), (10, "Oct"), (11, "Nov"), (12, "Dec")]

/-- Labels of the twelve months, the domain of the outer band scale
(`MONTHS.map(m => m.label)`). -/
def monthLabels : List String := MONTHS.map (fun p => p.2)

/-- Lookup in `MONTH_MAP` (`new Map(MONTHS.map(m => [m.value, m.label]))`):
`none` for a value with no label, mirroring `Map.get` returning undefined. -/
def monthMap (m : ℕ) : Option String :=
  (MONTHS.find? (fun p => decide (p.1 = m))).map (fun p => p.2)

/-- Series type of a record: rows fetched from the 2025 forecast endpoint
are tagged `forecast`, rows from the actuals endpoints `actual`. -/
inductive SType where
  | actual : SType
  | forecast : SType
deriving DecidableEq

/-- One chart record as consumed by the render effect.  `month` and
`station` are optional so that records malformed by a missing field can
be traced through the pipeline; `key` is the year-type bar key
(for example "2023-actual"), `rainfall` the numeric value. -/
structure Datum where
  month : Option ℕ
  station : Option ℕ
  key : String
  year : ℤ
  rainfall : ℚ
  stype : SType
deriving DecidableEq

/-- Ordinal colour scale of the page:
`d3.scaleOrdinal().domain([2023,2024,2025]).range(["#1b9e77","#d95f02","#7570b3"])`
(`YEAR_OPTIONS.sort()` sorts the numeric years lexicographically to
2023, 2024, 2025).  An unseen year would be registered on first use by a
d3 ordinal scale; the pages only feed the three configured years. -/
def colorScale (year : ℤ) : String :=
  if year = 2023 then "#1b9e77"
  else if year = 2024 then "#d95f02"
  else if year = 2025 then "#7570b3"
  else "#1b9e77"

/-- Optional crop suitability limits as fetched from the crop-limits
endpoints ({min, max} for rainfall, {min, max, best} for temperature). -/
structure CropLimits where
  min : ℚ
  best : ℚ
  max : ℚ
deriving DecidableEq

/-- Data maximum of the render effect:
`const dataMax = d3.max(chartData, d => d.rainfall) || 100` — the
JavaScript `||` substitutes 100 when `d3.max` yields undefined (empty
data) or 0. -/
def dataMax (chartData : List Datum) : ℚ :=
  match d3max (chartData.map (fun d => d.rainfall)) with
  | none => 100
  | some m => if m = 0 then 100 else m

/-- Crop maximum: `const cropMax = cropLimits ? cropLimits.max : 0`. -/
def cropMaxOf : Option CropLimits → ℚ
  | none => 0
  | some c => c.max

/-- Padded y-axis maximum: `const yMax = Math.max(dataMax, cropMax) * 1.1`. -/
def yMaxVal (chartData : List Datum) (cl : Option CropLimits) : ℚ :=
  max (dataMax chartData) (cropMaxOf cl) * (11 / 10)

/-- Continuous value scale of the page:
`d3.scaleLinear().domain([0, yMax]).range([height, 0])`. -/
def yScale (height : ℚ) (chartData : List Datum) (cl : Option CropLimits) : LinearScale :=
  ⟨0, yMaxVal chartData cl, height, 0⟩

/-- Outer month band scale:
`d3.scaleBand().domain(MONTHS.map(m => m.label)).range([0, width]).padding(0.2)`. -/
def x0Scale (width : ℚ) : BandScale String :=
  ⟨monthLabels, 0, width, 1 / 5, 1 / 5, 1 / 2⟩

/-- Numeric ascending sort of the selected stations
(`selectedStations.sort((a, b) => a - b)`). -/
def sortStations (stations : List ℕ) : List ℕ :=
  stations.mergeSort (fun a b => decide (a ≤ b))

/-- Middle station band scale:
`d3.scaleBand().domain(selectedStations.sort((a,b) => a-b)).range([0, x0.bandwidth()]).padding(0.1)`. -/
def x1Scale (stations : List ℕ) (x0bw : ℚ) : BandScale ℕ :=
  ⟨sortStations stations, 0, x0bw, 1 / 10, 1 / 10, 1 / 2⟩

/-- Inner year-type band scale:
`d3.scaleBand().domain(barDomain).range([0, x1.bandwidth()]).padding(0.05)`. -/
def x2Scale (barDomain : List String) (x1bw : ℚ) : BandScale String :=
  ⟨barDomain, 0, x1bw, 1 / 20, 1 / 20, 1 / 2⟩

/-- Bar-key domain built by the data-loading effect:
`Array.from(new Set(flatData.map(d => d.key))).sort()` — deduplicate in
first-encounter order, then sort lexicographically. -/
def buildBarDomain (flat : List Datum) : List String :=
  ((flat.map (fun d => d.key)).eraseDups).mergeSort (fun a b => decide (a ≤ b))

/-- Geometry attributes of one bar rect as assigned in the render
effect (x / y / height / width / opacity / fill). -/
structure BarAttrs where
  x : Option ℚ
  y : ℚ
  h : ℚ
  w : ℚ
  opacity : ℚ
  fill : String
deriving DecidableEq

/-- Initial bar geometry of both rainfall pages:
`x = x2(d.key)`;
`y = d.rainfall === 0 ? y(0) - 1 : y(d.rainfall)`;
`height = d.rainfall === 0 ? 1 : height - y(d.rainfall)`;
`opacity = d.rainfall === 0 ? 0.4 : (d.type === "forecast" ? 0.7 : 1.0)`;
`width = x2.bandwidth()`; `fill = color(d.year)`. -/
def barAttrs (x2 : BandScale String) (y : LinearScale) (plotH : ℚ) (d : Datum) : BarAttrs :=
  { x := x2.pos d.key
    y := if d.rainfall = 0 then y.apply 0 - 1 else y.apply d.rainfall
    h := if d.rainfall = 0 then 1 else plotH - y.apply d.rainfall
    w := x2.bandwidth
    opacity := if d.rainfall = 0 then 2 / 5 else if d.stype = SType.forecast then 7 / 10 else 1
    fill := colorScale d.year }

/-- Crop suitability overlay geometry: shaded rect plus the two dashed
boundary lines. -/
structure CropOverlay where
  rectY : ℚ
  rectH : ℚ
  lineMaxY : ℚ
  lineMinY : ℚ
deriving DecidableEq

/-- Initial crop overlay of RainfallD3Page (and the temperaturechartKJ
variant): `yMin = y(cropLimits.min)`, `yMax = y(cropLimits.max)`, rect at
`y = yMax` with `height = yMin - yMax`, dashed lines at `yMax` and `yMin`. -/
def cropOverlayInit (y : LinearScale) (c : CropLimits) : CropOverlay :=
  ⟨y.apply c.max, y.apply c.min - y.apply c.max, y.apply c.max, y.apply c.min⟩

/-- Crop overlay as repositioned by the zoom handler:
`cropRect.attr("y", newYMax).attr("height", Math.max(0, newYMin - newYMax))`. -/
def cropOverlayZoom (newY : LinearScale) (c : CropLimits) : CropOverlay :=
  ⟨newY.apply c.max, max 0 (newY.apply c.min - newY.apply c.max),
   newY.apply c.max, newY.apply c.min⟩

/-- Inputs of one render pass: plot dimensions (after the margins),
chart data, bar-key domain, selected stations and optional crop limits. -/
structure ChartInputs where
  width : ℚ
  height : ℚ
  chartData : List Datum
  barDomain : List String
  stations : List ℕ
  cropLimits : Option CropLimits
deriving DecidableEq

/-- Guard of the bar-drawing block (line 296 of RainfallD3Page.js and
the zoom handler's line 421):
`chartData.length && barDomain.length && selectedStations.length`. -/
def drawGuard (inp : ChartInputs) : Bool :=
  !inp.chartData.isEmpty && !inp.barDomain.isEmpty && !inp.stations.isEmpty

/-- One rendered frame: the scale set, the scales the axes and
gridlines were generated against, the group translations, the leaf bar
rects (each paired with its datum) and the optional crop overlay. -/
structure RenderState where
  y : LinearScale
  x0 : BandScale String
  x1 : BandScale ℕ
  x2 : BandScale String
  yAxisScale : LinearScale
  xAxisScale : BandScale String
  gridScale : LinearScale
  monthGroups : List (Option ℕ × Option ℚ)
  stationGroups : List (Option ℕ × Option ℚ)
  bars : List (Datum × BarAttrs)
  crop : Option CropOverlay
deriving DecidableEq

/-- Initial render pass of RainfallD3Page's effect 4: build the four
scales, draw axes/gridlines against them, group the data by month and
station and emit one rect per record when the draw guard passes. -/
def initialRender (inp : ChartInputs) : RenderState :=
  let y := yScale inp.height inp.chartData inp.cropLimits
  let x0 := x0Scale inp.width
  let x1 := x1Scale inp.stations x0.bandwidth
  let x2 := x2Scale inp.barDomain x1.bandwidth
  let byMonth := groupBy (fun d => d.month) inp.chartData
  { y := y
    x0 := x0
    x1 := x1
    x2 := x2
    yAxisScale := y
    xAxisScale := x0
    gridScale := y
    monthGroups :=
      if drawGuard inp then
        byMonth.map (fun mg => (mg.1, (mg.1.bind monthMap).bind (fun lbl => x0.pos lbl)))
      else []
    stationGroups :=
      if drawGuard inp then
        byMonth.flatMap (fun mg =>
          (groupBy (fun d => d.station) mg.2).map
            (fun sg => (sg.1, sg.1.bind (fun st => x1.pos st))))
      else []
    bars :=
      if drawGuard inp then
        byMonth.flatMap (fun mg =>
          (groupBy (fun d => d.station) mg.2).flatMap
            (fun sg => sg.2.map (fun d => (d, barAttrs x2 y inp.height d))))
      else []
    crop := inp.cropLimits.map (fun c => cropOverlayInit y c) }

/-- Zoom handler of RainfallD3Page (the `.on("zoom", ...)` callback):
rescale the base continuous scale through the transform's vertical
component, re-range the month band scale through the horizontal
component applied to the base range `[0, width]`, recompute the station
and year-type band ranges from the new bandwidths, regenerate the axes
and gridlines against the rescaled scales, reposition the crop overlay,
and re-apply position and size (never fill, opacity or data identity) to
every existing bar. -/
def zoomUpdate (inp : ChartInputs) (st : RenderState) (t : ZoomTransform) : RenderState :=
  let baseY := yScale inp.height inp.chartData inp.cropLimits
  let newY := t.rescaleY baseY
  let newX0 := { x0Scale inp.width with r0 := t.applyX 0, r1 := t.applyX inp.width }
  let newX1 := x1Scale inp.stations newX0.bandwidth
  let newX2 := x2Scale inp.barDomain newX1.bandwidth
  { y := newY
    x0 := newX0
    x1 := newX1
    x2 := newX2
    yAxisScale := newY
    xAxisScale := newX0
    gridScale := newY
    monthGroups :=
      if drawGuard inp then
        st.monthGroups.map (fun g => (g.1, (g.1.bind monthMap).bind (fun lbl => newX0.pos lbl)))
      else st.monthGroups
    stationGroups :=
      if drawGuard inp then
        st.stationGroups.map (fun g => (g.1, g.1.bind (fun s => newX1.pos s)))
      else st.stationGroups
    bars :=
      if drawGuard inp then
        st.bars.map (fun p =>
          (p.1,
            { p.2 with
              x := newX2.pos p.1.key
              w := newX2.bandwidth
              y := if p.1.rainfall = 0 then newY.apply 0 - 1 else newY.apply p.1.rainfall
              h := max 0 (if p.1.rainfall = 0 then 1 else inp.height - newY.apply p.1.rainfall) }))
      else st.bars
    crop := inp.cropLimits.map (fun c => cropOverlayZoom newY c) }

/-- Configured lower scale bound of `d3.zoom().scaleExtent([1, 5])`. -/
def scaleExtentMin : ℚ := 1

/-- Configured upper scale bound of `d3.zoom().scaleExtent([1, 5])`. -/
def scaleExtentMax : ℚ := 5

/-- Modelled from the spec: d3-zoom's clamping of a requested scale
factor to the configured scale extent
(`k = Math.max(extent[0], Math.min(extent[1], k))` inside d3-zoom's
`scale`; the d3 library is not part of the repository sources),
instantiated with the page's configured extent [1, 5]. -/
def clampScaleFactor (k : ℚ) : ℚ :=
  max scaleExtentMin (min scaleExtentMax k)

/-- Modelled from the spec: a zoom gesture requesting scale factor `k`
produces a transform whose applied factor is the clamped one. -/
def gestureScale (t : ZoomTransform) (k : ℚ) : ZoomTransform :=
  ⟨clampScaleFactor k, t.x, t.y⟩

/-- Modelled from the spec: d3-zoom's default translation constraint
(the d3 library is not part of the repository sources), instantiated
with the page's configuration `extent([[0,0],[width,height]])` and
`translateExtent([[0,0],[width,height]])`.  This is the per-axis
overshoot of the visible window past the translate extent `[0, e]` for a
transform with scale `k` and translation component `xv`: d3's
`dx0 = invert(extentLo) - translateLo`, `dx1 = invert(extentHi) - translateHi`,
combined as `dx1 > dx0 ? (dx0+dx1)/2 : Math.min(0,dx0) || Math.max(0,dx1)`. -/
def constrainShift (k xv e : ℚ) : ℚ :=
  let d0 := (0 - xv) / k - 0
  let d1 := (e - xv) / k - e
  if d0 < d1 then (d0 + d1) / 2 else if d0 < 0 then d0 else max 0 d1

/-- Modelled from the spec: d3-zoom's default constraint applied to a
transform, translating it back by the per-axis overshoot.  With both the
viewport extent and the translate extent configured to
`[[0,0],[width,height]]`, the overshoot formula is the same on both axes
(`constrainShift`), fed with the transform's translation component and
the extent size of that axis. -/
def constrainTransform (t : ZoomTransform) (w h : ℚ) : ZoomTransform :=
  t.translate (constrainShift t.k t.x w) (constrainShift t.k t.y h)

/-- Transform installed by `handleResetZoom`: `d3.zoomIdentity`. -/
def resetTransform : ZoomTransform := zoomIdentity

/-- Animation duration of `handleResetZoom`: `.transition().duration(750)`. -/
def resetDuration : ℚ := 750

end Rainfall

namespace TempKJ

open D3 Rainfall

/-- Render effect of the temperaturechartKJ variant
(src/temperaturechartKJ/src/App.js): its effect 4 starts with
`if (!chartData.length || !barDomain.length || !selectedStations.length)`
and then clears the svg and returns, so an empty input produces a
cleared scene (`none`) rather than a frame; otherwise it builds the same
scales and bar geometry as RainfallD3Page. -/
def renderKJ (inp : ChartInputs) : Option RenderState :=
  if drawGuard inp then some (initialRender inp) else none

end TempKJ

namespace Trends

open D3 Rainfall

/-- One point of a chart series in TrendsD3Page: a day of the month and
a temperature. -/
structure Pt where
  day : ℚ
  temp : ℚ
deriving DecidableEq

/-- One chart series of TrendsD3Page: a state key and its day-sorted
sample points (`values ... .sort((a, b) => d3.ascending(a.day, b.day))`). -/
structure TSeries where
  key : String
  values : List Pt
deriving DecidableEq

/-- Continuous day scale of TrendsD3Page:
`d3.scaleLinear().domain([1, 31]).range([0, innerW])`. -/
def xScale (innerW : ℚ) : LinearScale := ⟨1, 31, 0, innerW⟩

/-- Hover candidate produced for one series in the `mousemove` handler:
the nearest sample (by the bisector) with its series key and the pixel
distance `dy = Math.abs(screenY - my)` of that sample to the pointer. -/
structure Candidate where
  day : ℚ
  temp : ℚ
  state : String
  dy : ℚ
deriving DecidableEq

/-- Day value under the pointer: `const day = x.invert(mx)`. -/
def hoverDay (innerW mx : ℚ) : ℚ := (xScale innerW).invert mx

/-- Candidate of one series:
`const i = bisect(s.values, day);`
`const idx = Math.max(0, Math.min(s.values.length - 1, i));`
`const v = s.values[idx]; const screenY = y(v.temp);`
`{...v, state: s.key, dy: Math.abs(screenY - my)}`. -/
def candidateFor (y : LinearScale) (my day : ℚ) (s : TSeries) : Candidate :=
  let days := s.values.map (fun v => v.day)
  let i := bisectCenter days day
  let idx := min (s.values.length - 1) i
  let v := s.values.getD idx ⟨0, 0⟩
  ⟨v.day, v.temp, s.key, |y.apply v.temp - my|⟩

/-- Reduction picking the candidate of minimal `dy`
(`nearest.reduce((a, b) => (a.dy < b.dy ? a : b))`); the JavaScript
`reduce` without an initial value starts from the first element, so the
empty case never arises in the handler (it returns early on an empty
series list) and is given a junk value here. -/
def reduceMin : List Candidate → Candidate
  | [] => ⟨0, 0, "", 0⟩
  | c :: rest => rest.foldl (fun a b => if a.dy < b.dy then a else b) c

/-- Candidate list of the handler, one candidate per visible series. -/
def hoverCandidates (innerW : ℚ) (y : LinearScale) (series : List TSeries)
    (mx my : ℚ) : List Candidate :=
  series.map (candidateFor y my (hoverDay innerW mx))

/-- Focused candidate: the one of minimal pixel distance to the pointer. -/
def hoverFocused (innerW : ℚ) (y : LinearScale) (series : List TSeries)
    (mx my : ℚ) : Candidate :=
  reduceMin (hoverCandidates innerW y series mx my)

/-- Clamped, rounded day shown in the tooltip header and used for the
focus line: `Math.max(1, Math.min(31, Math.round(day)))`. -/
def hoverClampedDay (innerW mx : ℚ) : ℤ :=
  max 1 (min 31 (jsRound (hoverDay innerW mx)))

/-- Non-focused candidates as presented in the tooltip:
`nearest.filter(n => n.state !== focused.state).sort((a, b) => d3.ascending(a.state, b.state))`
(Array.prototype.sort with a comparator is a stable sort). -/
def hoverOthers (innerW : ℚ) (y : LinearScale) (series : List TSeries)
    (mx my : ℚ) : List Candidate :=
  ((hoverCandidates innerW y series mx my).filter
      (fun c => decide (c.state ≠ (hoverFocused innerW y series mx my).state))).mergeSort
    (fun a b => decide (a.state ≤ b.state))

/-- Result reported by one `mousemove` event: the focused candidate,
the other candidates in sorted order, the clamped rounded day, the
focus-line and focus-dot pixel position, and the full candidate list. -/
structure HoverResult where
  focused : Candidate
  others : List Candidate
  clampedDay : ℤ
  cx : ℚ
  cy : ℚ
  candidates : List Candidate
deriving DecidableEq

/-- The `mousemove` handler of TrendsD3Page's draw effect: it returns
early when no series is visible (`if (!mergedForHover.length) return`),
otherwise it resolves the pointer to a focused candidate, positions the
focus line at `x(clampedDay)` and the dot at `y(focused.temp)`, and
lists the remaining candidates sorted by state. -/
def mousemove (innerW : ℚ) (y : LinearScale) (series : List TSeries)
    (mx my : ℚ) : Option HoverResult :=
  if series.isEmpty then none
  else
    some
      { focused := hoverFocused innerW y series mx my
        others := hoverOthers innerW y series mx my
        clampedDay := hoverClampedDay innerW mx
        cx := (xScale innerW).apply ((hoverClampedDay innerW mx : ℤ) : ℚ)
        cy := y.apply (hoverFocused innerW y series mx my).temp
        candidates := hoverCandidates innerW y series mx my }

/-- Crop suitability overlay of TrendsD3Page: shaded band between
`yTop = y(cropLimits.max)` and `yBottom = y(cropLimits.min)` with
`bandHeight = Math.max(1, yBottom - yTop)`, boundary lines at `yTop` and
`yBottom`, a best guide line at `y(cropLimits.best)` and its label 6
pixels above. -/
structure TrendsOverlay where
  rectY : ℚ
  rectH : ℚ
  topY : ℚ
  bottomY : ℚ
  bestY : ℚ
  labelY : ℚ
deriving DecidableEq

/-- Construction of the TrendsD3Page crop overlay from the current
continuous scale and the supplied limits. -/
def trendsOverlay (y : LinearScale) (c : CropLimits) : TrendsOverlay :=
  ⟨y.apply c.max, max 1 (y.apply c.min - y.apply c.max),
   y.apply c.max, y.apply c.min, y.apply c.best, y.apply c.best - 6⟩

end Trends

namespace FetchModel

/-- Event of the data-fetch interleaving model: `start` is one run of a
data-loading effect (its fetch is dispatched and, in TrendsD3Page, the
cleanup of the previous run fires, setting that run's `ignore` flag);
`complete g` is the resolution of the fetch dispatched by run `g`. -/
inductive FetchEv where
  | start : FetchEv
  | complete : ℕ → FetchEv
deriving DecidableEq

/-- State of the TrendsD3Page loading effects: one `ignore` flag per
effect run (`let ignore = false; ... return () => { ignore = true; }`)
and a log of applied completions, each paired with the number of runs
started at the moment it was applied. -/
structure TrendsFetchState where
  flags : List Bool
  applied : List (ℕ × ℕ)
deriving DecidableEq

/-- One step of the TrendsD3Page model: a new run marks the previous
run's `ignore` flag (the effect cleanup) and registers its own unset
flag; a completion is applied only when its run's flag is still unset
(`if (!ignore) set…`). -/
def trendsFetchStep (s : TrendsFetchState) : FetchEv → TrendsFetchState
  | FetchEv.start =>
      ⟨(s.flags.set (s.flags.length - 1) true) ++ [false], s.applied⟩
  | FetchEv.complete g =>
      if s.flags.getD g true = false then
        ⟨s.flags, s.applied ++ [(g, s.flags.length)]⟩
      else s

/-- Run of the TrendsD3Page model over an event sequence. -/
def runTrendsFetch (evs : List FetchEv) : TrendsFetchState :=
  evs.foldl trendsFetchStep ⟨[], []⟩

/-- State of the RainfallD3Page chart-data effect (lines 101-160): it
has no `ignore` flag and no cleanup, so only the count of started runs
and the log of applied completions exist. -/
structure RainFetchState where
  started : ℕ
  applied : List (ℕ × ℕ)
deriving DecidableEq

/-- One step of the RainfallD3Page model: a completion is applied
unconditionally (`Promise.all(promises).then(results => { setChartData(...) })`
with no staleness check). -/
def rainFetchStep (s : RainFetchState) : FetchEv → RainFetchState
  | FetchEv.start => ⟨s.started + 1, s.applied⟩
  | FetchEv.complete g => ⟨s.started, s.applied ++ [(g, s.started)]⟩

/-- Run of the RainfallD3Page model over an event sequence. -/
def runRainFetch (evs : List FetchEv) : RainFetchState :=
  evs.foldl rainFetchStep ⟨0, []⟩

end FetchModel

namespace Sample

open D3 Rainfall Trends

/-- Concrete record of the spec's scenario: month 1, station 5, value 0,
actual series of 2023. -/
def zeroBar : Datum := ⟨some 1, some 5, "2023-actual", 2023, 0, SType.actual⟩

/-- Concrete record of the spec's scenario: month 1, station 5, value 45,
forecast series of 2025. -/
def forecastBar : Datum := ⟨some 1, some 5, "2025-forecast", 2025, 45, SType.forecast⟩

/-- Concrete render inputs for the two-bar scenario. -/
def barsInputs : ChartInputs :=
  ⟨200, 100, [zeroBar, forecastBar], ["2023-actual", "2025-forecast"], [5], none⟩

/-- Concrete render inputs with an empty dataset. -/
def emptyInputs : ChartInputs := ⟨200, 100, [], [], [], none⟩

/-- Concrete record malformed by a missing month field. -/
def malformedBar : Datum := ⟨none, some 5, "2023-actual", 2023, 7, SType.actual⟩

/-- Concrete render inputs containing only the malformed record. -/
def malformedInputs : ChartInputs := ⟨200, 100, [malformedBar], ["2023-actual"], [5], none⟩

/-- Concrete hover series with integer days 1 and 3. -/
def seriesA : TSeries := ⟨"NSW", [⟨1, 0⟩, ⟨3, 10⟩]⟩

/-- Concrete single-point hover series at day 2. -/
def seriesB : TSeries := ⟨"QLD", [⟨2, 5⟩]⟩

end Sample

open D3 Rainfall Trends TempKJ FetchModel

/-- Helper: a left fold of `max` starting from 0 over a list of zeros is 0. -/
theorem foldl_max_all_zero (l : List ℚ) (h : ∀ q ∈ l, q = 0) : l.foldl max 0 = 0 := by
  induction l with
  | nil => rfl
  | cons a rest ih =>
    have ha : a = 0 := h a (by simp)
    have : max (0 : ℚ) a = 0 := by simp [ha]
    simp only [List.foldl_cons, this]
    exact ih (fun q hq => h q (by simp [hq]))

/-- Helper: when every record's value is 0 (in particular when the data
list is empty), `dataMax` is the fallback 100. -/
theorem dataMax_of_all_zero (chartData : List Datum) (hz : ∀ d ∈ chartData, d.rainfall = 0) :
    dataMax chartData = 100 := by
  cases chartData with
  | nil => rfl
  | cons d rest =>
    have hd : d.rainfall = 0 := hz d (by simp)
    have hrest : ∀ q ∈ rest.map (fun d => d.rainfall), q = 0 := by
      intro q hq
      obtain ⟨e, he, rfl⟩ := List.mem_map.mp hq
      exact hz e (by simp [he])
    unfold dataMax d3max
    simp only [List.map_cons, hd]
    rw [foldl_max_all_zero _ hrest]
    simp

/-- Helper: when the data has a nonzero maximum `m`, `dataMax` is `m`
(the `|| 100` fallback stays inactive). -/
theorem dataMax_of_max (chartData : List Datum) (m : ℚ)
    (hm : d3max (chartData.map (fun d => d.rainfall)) = some m) (hm0 : m ≠ 0) :
    dataMax chartData = m := by
  unfold dataMax
  rw [hm]
  simp [hm0]

/-- C6: the continuous value scale maps the domain [0, paddedMax] to the
pixel range [plotHeight, 0], where paddedMax is 1.1 times the maximum of
the observed data maximum and the suitability-range maximum when one is
supplied (and 1.1 times the observed maximum alone when none is). -/
theorem C6_value_scale_domain (height : ℚ) (chartData : List Datum)
    (cl : Option CropLimits) (m : ℚ)
    (hm : d3max (chartData.map (fun d => d.rainfall)) = some m) (hm0 : 0 < m) :
    (yScale height chartData cl).d0 = 0 ∧
    (yScale height chartData cl).r0 = height ∧
    (yScale height chartData cl).r1 = 0 ∧
    (∀ c, cl = some c → (yScale height chartData cl).d1 = 11 / 10 * max m c.max) ∧
    (cl = none → (yScale height chartData cl).d1 = 11 / 10 * m) := by
  have hdm : dataMax chartData = m := dataMax_of_max chartData m hm hm0.ne'
  refine ⟨rfl, rfl, rfl, ?_, ?_⟩
  · rintro c rfl
    show yMaxVal chartData (some c) = _
    unfold yMaxVal
    rw [hdm]
    show max m (c.max) * (11 / 10) = _
    ring
  · rintro rfl
    show yMaxVal chartData none = _
    unfold yMaxVal
    rw [hdm]
    show max m (cropMaxOf none) * (11 / 10) = _
    have : cropMaxOf none = 0 := rfl
    rw [this, max_eq_left hm0.le]
    ring

/-- C6 witness: a one-record dataset with value 45 and no suitability
range yields the scale [0, 1.1 * 45] -> [100, 0]. -/
theorem C6_value_scale_domain_witness :
    d3max (([⟨some 1, some 5, "2023-actual", 2023, 45, SType.actual⟩] : List Datum).map
        (fun d => d.rainfall)) = some 45 ∧ (0 : ℚ) < 45 ∧
    ((yScale 100 [⟨some 1, some 5, "2023-actual", 2023, 45, SType.actual⟩] none).d0 = 0 ∧
     (yScale 100 [⟨some 1, some 5, "2023-actual", 2023, 45, SType.actual⟩] none).r0 = 100 ∧
     (yScale 100 [⟨some 1, some 5, "2023-actual", 2023, 45, SType.actual⟩] none).r1 = 0 ∧
     (∀ c, (none : Option CropLimits) = some c →
        (yScale 100 [⟨some 1, some 5, "2023-actual", 2023, 45, SType.actual⟩] none).d1 =
          11 / 10 * max 45 c.max) ∧
     ((none : Option CropLimits) = none →
        (yScale 100 [⟨some 1, some 5, "2023-actual", 2023, 45, SType.actual⟩] none).d1 =
          11 / 10 * 45)) :=
  ⟨rfl, by decide,
   C6_value_scale_domain 100 [⟨some 1, some 5, "2023-actual", 2023, 45, SType.actual⟩]
     none 45 rfl (by decide)⟩

/-- C10: with an all-zero (or empty) dataset the fallback data maximum
100 is substituted, so the domain upper bound is 1.1 times the maximum
of 100 and the suitability maximum when present. -/
theorem C10_zero_data_fallback (height : ℚ) (chartData : List Datum)
    (cl : Option CropLimits) (hz : ∀ d ∈ chartData, d.rainfall = 0) :
    (yScale height chartData cl).d0 = 0 ∧
    (yScale height chartData cl).d1 = 11 / 10 * max 100 (cropMaxOf cl) := by
  refine ⟨rfl, ?_⟩
  show yMaxVal chartData cl = _
  unfold yMaxVal
  rw [dataMax_of_all_zero chartData hz]
  ring

/-- C10 witness: the empty dataset with no suitability range scales
against 1.1 * 100. -/
theorem C10_zero_data_fallback_witness :
    (∀ d ∈ ([] : List Datum), d.rainfall = 0) ∧
    ((yScale 100 [] none).d0 = 0 ∧
     (yScale 100 [] none).d1 = 11 / 10 * max 100 (cropMaxOf none)) :=
  ⟨by simp, C10_zero_data_fallback 100 [] none (by simp)⟩

/-- C9 counterexample: for the inverted suitability range min 50 / max
10 (with empty data, so the value scale is [0, 110] -> [100, 0]) the
initial rainfall-page overlay rectangle gets the negative height
y(50) - y(10) < 0, refuting the claim that no drawn suitability
rectangle ever has negative height. -/
theorem C9_overlay_counterexample :
    (cropOverlayInit (yScale 100 [] (some ⟨50, 0, 10⟩)) ⟨50, 0, 10⟩).rectH < 0 := by
  norm_num [cropOverlayInit, yScale, yMaxVal, dataMax, d3max, cropMaxOf,
    LinearScale.apply]

/-- C9 (amended): every supplied suitability range, including degenerate
and inverted ones, is rendered by total functions (no exception), the
TrendsD3Page overlay band height is clamped to at least 1 pixel and the
rainfall-page zoom-update overlay height is clamped to at least 0 - but
the rainfall page's initial overlay rectangle may get a negative height
for an inverted range. -/
theorem C9_overlay_clamped (y : LinearScale) (c : CropLimits) :
    1 ≤ (trendsOverlay y c).rectH ∧ 0 ≤ (cropOverlayZoom y c).rectH ∧
    (trendsOverlay y c).bestY = y.apply c.best ∧
    (trendsOverlay y c).topY = y.apply c.max ∧
    (trendsOverlay y c).bottomY = y.apply c.min := by
  exact ⟨le_max_left _ _, le_max_left _ _, rfl, rfl, rfl⟩

/-- C7 counterexample: in the RainfallD3Page chart-data effect model,
after two effect runs have started, the completion of the stale first
run (generation 0) is still applied - the applied log records generation
0 at a time when 2 generations had started, so the claim that a stale
fetch's completion is never applied fails on this effect. -/
theorem C7_stale_applied_counterexample :
    (runRainFetch [FetchEv.start, FetchEv.start, FetchEv.complete 0]).applied = [(0, 2)] ∧
    ¬ ((0 : ℕ) + 1 = 2) := by
  decide

/-- Helper: invariant of the TrendsD3Page ignore-flag model - only the
most recent effect run's flag is unset, and every logged application
came from the run that was latest when it was applied. -/
theorem trendsFetch_invariant (evs : List FetchEv) (s : TrendsFetchState)
    (hf : ∀ i, s.flags.getD i true = false → i + 1 = s.flags.length)
    (ha : ∀ p ∈ s.applied, p.1 + 1 = p.2) :
    ∀ p ∈ (evs.foldl trendsFetchStep s).applied, p.1 + 1 = p.2 := by
  induction evs generalizing s with
  | nil => exact ha
  | cons e rest ih =>
    simp only [List.foldl_cons]
    cases e with
    | start =>
      apply ih
      · intro i hi
        simp only [trendsFetchStep] at hi ⊢
        rw [List.getD_eq_getElem?_getD, List.getElem?_append] at hi
        rw [List.length_append, List.length_set]
        simp only [List.length_set] at hi
        by_cases hlt : i < s.flags.length
        · rw [if_pos hlt] at hi
          exfalso
          by_cases heq : i = s.flags.length - 1
          · subst heq
            rw [List.getElem?_set_self (by omega)] at hi
            simp at hi
          · rw [List.getElem?_set_ne (Ne.symm heq)] at hi
            rw [← List.getD_eq_getElem?_getD] at hi
            have := hf i hi
            omega
        · rw [if_neg hlt] at hi
          by_cases heq : i = s.flags.length
          · simp
            omega
          · exfalso
            have hnone : ([false] : List Bool)[i - s.flags.length]? = none := by
              apply List.getElem?_eq_none
              simp
              omega
            rw [hnone] at hi
            simp at hi
      · exact ha
    | complete g =>
      simp only [trendsFetchStep]
      by_cases hflag : s.flags.getD g true = false
      · rw [if_pos hflag]
        apply ih
        · exact hf
        · intro p hp
          rcases List.mem_append.mp hp with h | h
          · exact ha p h
          · simp only [List.mem_singleton] at h
            subst h
            exact hf g hflag
      · rw [if_neg hflag]
        exact ih s hf ha

/-- C7 (amended): in the TrendsD3Page loading effects, the cleanup-set
ignore flag makes every applied completion come from the latest started
generation - stale completions are discarded (while the RainfallD3Page
chart-data effect, having no such guard, applies stale completions; see
the counterexample). -/
theorem C7_trends_latest_generation_only (evs : List FetchEv) :
    ∀ p ∈ (runTrendsFetch evs).applied, p.1 + 1 = p.2 := by
  apply trendsFetch_invariant
  · intro i hi
    simp at hi
  · intro p hp
    simp at hp

/-- C7 witness: a single run followed by its own completion is applied,
and its generation is the latest one. -/
theorem C7_trends_witness :
    (0, 1) ∈ (runTrendsFetch [FetchEv.start, FetchEv.complete 0]).applied ∧ (0 : ℕ) + 1 = 1 :=
  ⟨by decide, C7_trends_latest_generation_only [FetchEv.start, FetchEv.complete 0] (0, 1) (by decide)⟩

/-- Helper: bounds on the translation component produced by the d3-zoom
constraint: with scale factor at least 1 and a nonnegative extent, the
constrained translation lies in [e*(1-k), 0]. -/
theorem constrainShift_bounds (k xv e : ℚ) (hk : 1 ≤ k) (he : 0 ≤ e) :
    e * (1 - k) ≤ xv + k * constrainShift k xv e ∧ xv + k * constrainShift k xv e ≤ 0 := by
  have hk0 : (0 : ℚ) < k := lt_of_lt_of_le one_pos hk
  have hkne : k ≠ 0 := ne_of_gt hk0
  simp only [constrainShift, sub_zero]
  have hd10 : (e - xv) / k - e ≤ (0 - xv) / k := by
    have h1 : e / k ≤ e := div_le_self he hk
    have h2 : (e - xv) / k = e / k - xv / k := by ring
    have h3 : (0 - xv) / k = -(xv / k) := by ring
    rw [h2, h3]
    linarith
  rw [if_neg (not_lt.mpr hd10)]
  by_cases hneg : (0 - xv) / k < 0
  · rw [if_pos hneg]
    have hx : xv + k * ((0 - xv) / k) = 0 := by
      field_simp
      ring
    rw [hx]
    refine ⟨?_, le_refl 0⟩
    nlinarith [mul_nonneg he (sub_nonneg.mpr hk)]
  · rw [if_neg hneg]
    have hxv : xv ≤ 0 := by
      by_contra hcon
      push_neg at hcon
      have : (0 - xv) / k < 0 := div_neg_of_neg_of_pos (by linarith) hk0
      exact hneg this
    by_cases hd1 : (e - xv) / k - e ≤ 0
    · rw [max_eq_left hd1]
      rw [mul_zero, add_zero]
      refine ⟨?_, hxv⟩
      have h1 : (e - xv) / k ≤ e := by linarith
      rw [div_le_iff₀ hk0] at h1
      nlinarith
    · push_neg at hd1
      rw [max_eq_right hd1.le]
      have hval : xv + k * ((e - xv) / k - e) = e - e * k := by
        field_simp
        ring
      rw [hval]
      constructor
      · nlinarith
      · nlinarith [mul_nonneg he (sub_nonneg.mpr hk)]

/-- C4: the zoom state is bounded - the applied scale factor is clamped
to the configured extent [1, 5] (a requested factor 10 yields 5), and
the constrained translation keeps the visible window inside the original
plot extent [[0, 0], [width, height]] on both axes. -/
theorem C4_zoom_bounds :
    clampScaleFactor 10 = 5 ∧
    (∀ k, scaleExtentMin ≤ clampScaleFactor k ∧ clampScaleFactor k ≤ scaleExtentMax) ∧
    (∀ (t : ZoomTransform) (w h p : ℚ), 1 ≤ t.k → 0 ≤ w → 0 ≤ p → p ≤ w →
      0 ≤ (constrainTransform t w h).invertX p ∧ (constrainTransform t w h).invertX p ≤ w) ∧
    (∀ (t : ZoomTransform) (w h p : ℚ), 1 ≤ t.k → 0 ≤ h → 0 ≤ p → p ≤ h →
      0 ≤ (constrainTransform t w h).invertY p ∧ (constrainTransform t w h).invertY p ≤ h) := by
  refine ⟨?_, ?_, ?_, ?_⟩
  · norm_num [clampScaleFactor, scaleExtentMin, scaleExtentMax]
  · intro k
    refine ⟨le_max_left _ _, max_le (by norm_num [scaleExtentMin, scaleExtentMax]) (min_le_left _ _)⟩
  · intro t w h p hk hw hp0 hpw
    have hk0 : (0 : ℚ) < t.k := lt_of_lt_of_le one_pos hk
    obtain ⟨hlo, hhi⟩ := constrainShift_bounds t.k t.x w hk hw
    show 0 ≤ (p - (t.x + t.k * constrainShift t.k t.x w)) / t.k ∧
      (p - (t.x + t.k * constrainShift t.k t.x w)) / t.k ≤ w
    constructor
    · apply div_nonneg _ hk0.le
      linarith
    · rw [div_le_iff₀ hk0]
      nlinarith
  · intro t w h p hk hh hp0 hph
    have hk0 : (0 : ℚ) < t.k := lt_of_lt_of_le one_pos hk
    obtain ⟨hlo, hhi⟩ := constrainShift_bounds t.k t.y h hk hh
    show 0 ≤ (p - (t.y + t.k * constrainShift t.k t.y h)) / t.k ∧
      (p - (t.y + t.k * constrainShift t.k t.y h)) / t.k ≤ h
    constructor
    · apply div_nonneg _ hk0.le
      linarith
    · rw [div_le_iff₀ hk0]
      nlinarith

/-- C4 witness: a concrete transform with scale 2 and a far-right
translation is constrained so that pixel 7 of a 100-wide plot inverts
into [0, 100]. -/
theorem C4_zoom_bounds_witness :
    (1 : ℚ) ≤ (⟨2, 300, 4⟩ : ZoomTransform).k ∧
    (0 ≤ (constrainTransform ⟨2, 300, 4⟩ 100 50).invertX 7 ∧
     (constrainTransform ⟨2, 300, 4⟩ 100 50).invertX 7 ≤ 100) :=
  ⟨by decide,
   C4_zoom_bounds.2.2.1 ⟨2, 300, 4⟩ 100 50 7 (by decide) (by decide) (by decide) (by decide)⟩

/-- Helper: rescaling a continuous scale through the identity transform
returns it unchanged (the pixel range must be non-degenerate). -/
theorem rescaleY_identity (s : LinearScale) (hr : s.r0 ≠ s.r1) :
    zoomIdentity.rescaleY s = s := by
  have h2 : s.r1 - s.r0 ≠ 0 := sub_ne_zero.mpr (Ne.symm hr)
  have hd0 : s.invert (zoomIdentity.invertY s.r0) = s.d0 := by
    simp [LinearScale.invert, ZoomTransform.invertY, zoomIdentity]
  have hd1 : s.invert (zoomIdentity.invertY s.r1) = s.d1 := by
    simp only [LinearScale.invert, ZoomTransform.invertY, zoomIdentity]
    rw [sub_zero, div_one]
    field_simp
  unfold ZoomTransform.rescaleY
  rw [hd0, hd1]

/-- C5: resetZoom animates the transform to the identity over a fixed
750 ms duration, and a zoom update carried out with the identity
transform restores every scale of the scale set (and the scales the
axes and gridlines are generated against) to the values of the initial
render at the same viewport size. -/
theorem C5_reset_restores_scales (inp : ChartInputs) (st : RenderState)
    (hh : inp.height ≠ 0) :
    resetTransform = zoomIdentity ∧ resetDuration = 750 ∧
    (zoomUpdate inp st resetTransform).y = (initialRender inp).y ∧
    (zoomUpdate inp st resetTransform).x0 = (initialRender inp).x0 ∧
    (zoomUpdate inp st resetTransform).x1 = (initialRender inp).x1 ∧
    (zoomUpdate inp st resetTransform).x2 = (initialRender inp).x2 ∧
    (zoomUpdate inp st resetTransform).yAxisScale = (initialRender inp).yAxisScale ∧
    (zoomUpdate inp st resetTransform).xAxisScale = (initialRender inp).xAxisScale ∧
    (zoomUpdate inp st resetTransform).gridScale = (initialRender inp).gridScale := by
  have hy : zoomIdentity.rescaleY (yScale inp.height inp.chartData inp.cropLimits) =
      yScale inp.height inp.chartData inp.cropLimits :=
    rescaleY_identity _ hh
  have hx0 : ({ x0Scale inp.width with
      r0 := zoomIdentity.applyX 0, r1 := zoomIdentity.applyX inp.width } : BandScale String) =
      x0Scale inp.width := by
    simp [ZoomTransform.applyX, zoomIdentity, x0Scale]
  refine ⟨rfl, rfl, ?_, ?_, ?_, ?_, ?_, ?_, ?_⟩ <;>
    simp only [zoomUpdate, initialRender, resetTransform, hy, hx0]

/-- C5 witness: at a concrete viewport of height 100 the reset transform
restores the continuous scale of the initial render. -/
theorem C5_reset_restores_scales_witness :
    (Sample.barsInputs.height ≠ 0) ∧
    (zoomUpdate Sample.barsInputs (initialRender Sample.barsInputs) resetTransform).y =
      (initialRender Sample.barsInputs).y :=
  ⟨by decide,
   (C5_reset_restores_scales Sample.barsInputs (initialRender Sample.barsInputs)
     (by decide)).2.2.1⟩

/-- Helper: flattening the buckets after inserting one element is a
permutation of the old flattening with the element appended. -/
theorem addToGroup_flat_perm {α κ : Type} [DecidableEq κ] (k : κ) (a : α)
    (gs : List (κ × List α)) :
    ((addToGroup k a gs).flatMap (fun g => g.2)).Perm
      (gs.flatMap (fun g => g.2) ++ [a]) := by
  induction gs with
  | nil => simp [addToGroup]
  | cons g rest ih =>
    obtain ⟨k₂, as⟩ := g
    by_cases hk : k₂ = k
    · simp only [addToGroup, if_pos hk, List.flatMap_cons]
      have h1 : (as ++ [a]) ++ rest.flatMap (fun g => g.2) =
          as ++ ([a] ++ rest.flatMap (fun g => g.2)) := by
        rw [List.append_assoc]
      have h2 : as ++ (rest.flatMap (fun g => g.2) ++ [a]) =
          (as ++ rest.flatMap (fun g => g.2)) ++ [a] := by
        rw [List.append_assoc]
      rw [h1, ← h2]
      exact List.Perm.append_left as List.perm_append_comm
    · simp only [addToGroup, if_neg hk, List.flatMap_cons]
      have h2 : as ++ (rest.flatMap (fun g => g.2) ++ [a]) =
          (as ++ rest.flatMap (fun g => g.2)) ++ [a] := by
        rw [List.append_assoc]
      rw [← h2]
      exact List.Perm.append_left as ih

/-- Helper: the flattening of `groupBy` is a permutation of the input
list - grouping loses and duplicates nothing. -/
theorem groupBy_flat_perm {α κ : Type} [DecidableEq κ] (key : α → κ) (l : List α) :
    ((groupBy key l).flatMap (fun g => g.2)).Perm l := by
  induction l using List.reverseRecOn with
  | nil => simp [groupBy]
  | append_singleton l a ih =>
    have hgb : groupBy key (l ++ [a]) = addToGroup (key a) a (groupBy key l) := by
      simp [groupBy, List.foldl_append]
    rw [hgb]
    exact (addToGroup_flat_perm _ _ _).trans (ih.append_right [a])

/-- Helper: the two-level month/station grouping of the bar pipeline
flattens back to a permutation of the chart data. -/
theorem nested_flat_perm (l : List Datum) :
    ((groupBy (fun d => d.month) l).flatMap (fun mg =>
        (groupBy (fun d => d.station) mg.2).flatMap (fun sg => sg.2))).Perm l := by
  have step : ∀ gs : List (Option ℕ × List Datum),
      (gs.flatMap (fun mg =>
          (groupBy (fun d => d.station) mg.2).flatMap (fun sg => sg.2))).Perm
        (gs.flatMap (fun g => g.2)) := by
    intro gs
    induction gs with
    | nil => simp
    | cons g rest ih =>
      simp only [List.flatMap_cons]
      exact (groupBy_flat_perm _ _).append ih
  exact (step _).trans (groupBy_flat_perm _ _)

/-- Helper: under the draw guard, the bar list of the initial render is
the flattened two-level grouping of the chart data, each record paired
with its geometry. -/
theorem initialRender_bars_eq (inp : ChartInputs) (hg : drawGuard inp = true) :
    (initialRender inp).bars =
      ((groupBy (fun d => d.month) inp.chartData).flatMap (fun mg =>
          (groupBy (fun d => d.station) mg.2).flatMap (fun sg => sg.2))).map
        (fun d => (d, barAttrs (x2Scale inp.barDomain (x1Scale inp.stations
            (x0Scale inp.width).bandwidth).bandwidth)
          (yScale inp.height inp.chartData inp.cropLimits) inp.height d)) := by
  show (if drawGuard inp then _ else []) = _
  rw [if_pos hg]
  simp only [List.map_flatMap]

/-- C2: every leaf sample is rendered as exactly one bar (the bar count
equals the record count and every record owns a bar); a zero-value bar
sits at continuous(0) minus 1 with height exactly 1 (never 0) and
opacity 0.4; a nonzero bar sits at continuous(value) with height
plotHeight minus continuous(value) and opacity 0.7 for forecast samples
and 1.0 otherwise; bar width is the inner bandwidth. -/
theorem C2_bar_geometry (inp : ChartInputs) (hg : drawGuard inp = true) :
    (initialRender inp).bars.length = inp.chartData.length ∧
    (∀ d ∈ inp.chartData, ∃ a, (d, a) ∈ (initialRender inp).bars) ∧
    (∀ p ∈ (initialRender inp).bars,
      p.2.w = (initialRender inp).x2.bandwidth ∧
      (p.1.rainfall = 0 →
        p.2.y = (initialRender inp).y.apply 0 - 1 ∧ p.2.h = 1 ∧ p.2.h ≠ 0 ∧
        p.2.opacity = 2 / 5) ∧
      (p.1.rainfall ≠ 0 →
        p.2.y = (initialRender inp).y.apply p.1.rainfall ∧
        p.2.h = inp.height - (initialRender inp).y.apply p.1.rainfall ∧
        p.2.opacity = (if p.1.stype = SType.forecast then 7 / 10 else (1 : ℚ)))) := by
  have hbars := initialRender_bars_eq inp hg
  have hperm := nested_flat_perm inp.chartData
  refine ⟨?_, ?_, ?_⟩
  · rw [hbars, List.length_map, hperm.length_eq]
  · intro d hd
    exact ⟨_, by rw [hbars]; exact List.mem_map.mpr ⟨d, hperm.mem_iff.mpr hd, rfl⟩⟩
  · intro p hp
    rw [hbars] at hp
    obtain ⟨d, hd, rfl⟩ := List.mem_map.mp hp
    refine ⟨rfl, ?_, ?_⟩
    · intro h0
      replace h0 : d.rainfall = 0 := h0
      refine ⟨?_, ?_, ?_, ?_⟩ <;> simp [barAttrs, h0, initialRender]
    · intro h0
      replace h0 : d.rainfall ≠ 0 := h0
      refine ⟨?_, ?_, ?_⟩ <;> simp [barAttrs, h0, initialRender]

/-- C2 witness: the spec scenario (one zero-value 2023 bar and one
45-valued 2025 forecast bar in the January / station-5 group) renders
exactly two bars. -/
theorem C2_bar_geometry_witness :
    drawGuard Sample.barsInputs = true ∧
    (initialRender Sample.barsInputs).bars.length = Sample.barsInputs.chartData.length :=
  ⟨by decide, (C2_bar_geometry Sample.barsInputs (by decide)).1⟩

/-- C8 counterexample: a record malformed by a missing month field is
not dropped - the render pipeline still emits a bar for it (grouped
under the missing key, whose month-group position resolves to none), so
the claim that malformed records are dropped fails at this input. -/
theorem C8_malformed_not_dropped :
    Sample.malformedBar.month = none ∧
    (initialRender Sample.malformedInputs).bars.map (fun p => p.1) = [Sample.malformedBar] ∧
    (initialRender Sample.malformedInputs).monthGroups.map (fun g => g.1) = [none] := by
  refine ⟨rfl, rfl, rfl⟩

/-- C8 (amended): an empty input yields an empty bar-key domain and a
cleared scene (no bars, no group nodes, and the temperaturechartKJ
variant clears and returns); malformed records (missing month or
station) are not dropped, but they are absorbed non-fatally: every
record - malformed or not - still gets its own bar, and a group keyed by
a missing field merely has an unresolvable (none) translation. -/
theorem C8_empty_and_malformed (inp : ChartInputs) :
    (inp.chartData = [] →
      buildBarDomain inp.chartData = [] ∧ (initialRender inp).bars = [] ∧
      (initialRender inp).monthGroups = [] ∧ (initialRender inp).stationGroups = [] ∧
      renderKJ inp = none) ∧
    (drawGuard inp = true → ∀ d ∈ inp.chartData, ∃ a, (d, a) ∈ (initialRender inp).bars) ∧
    (∀ g ∈ (initialRender inp).monthGroups, g.1 = none → g.2 = none) ∧
    (∀ g ∈ (initialRender inp).stationGroups, g.1 = none → g.2 = none) := by
  refine ⟨?_, ?_, ?_, ?_⟩
  · intro he
    have hguard : drawGuard inp = false := by
      simp [drawGuard, he]
    refine ⟨by rw [he]; exact List.mergeSort_nil, ?_, ?_, ?_, ?_⟩ <;>
      simp [initialRender, renderKJ, hguard]
  · intro hg d hd
    have hbars := initialRender_bars_eq inp hg
    have hperm := nested_flat_perm inp.chartData
    exact ⟨_, by rw [hbars]; exact List.mem_map.mpr ⟨d, hperm.mem_iff.mpr hd, rfl⟩⟩
  · intro g hg hnone
    by_cases hguard : drawGuard inp = true
    · have : (initialRender inp).monthGroups =
          (groupBy (fun d => d.month) inp.chartData).map
            (fun mg => (mg.1, (mg.1.bind monthMap).bind
              (fun lbl => (x0Scale inp.width).pos lbl))) := by
        show (if drawGuard inp then _ else []) = _
        rw [if_pos hguard]
      rw [this] at hg
      obtain ⟨mg, _, rfl⟩ := List.mem_map.mp hg
      simp only at hnone
      simp [hnone]
    · have : (initialRender inp).monthGroups = [] := by
        show (if drawGuard inp then _ else []) = _
        rw [if_neg hguard]
      rw [this] at hg
      simp at hg
  · intro g hg hnone
    by_cases hguard : drawGuard inp = true
    · have : (initialRender inp).stationGroups =
          (groupBy (fun d => d.month) inp.chartData).flatMap (fun mg =>
            (groupBy (fun d => d.station) mg.2).map
              (fun sg => (sg.1, sg.1.bind (fun st =>
                (x1Scale inp.stations (x0Scale inp.width).bandwidth).pos st)))) := by
        show (if drawGuard inp then _ else []) = _
        rw [if_pos hguard]
      rw [this] at hg
      rw [List.mem_flatMap] at hg
      obtain ⟨mg, _, hsg⟩ := hg
      obtain ⟨sg, _, rfl⟩ := List.mem_map.mp hsg
      simp only at hnone
      simp [hnone]
    · have : (initialRender inp).stationGroups = [] := by
        show (if drawGuard inp then _ else []) = _
        rw [if_neg hguard]
      rw [this] at hg
      simp at hg

/-- C8 witness: the empty input produces the empty bar-key domain and a
cleared scene. -/
theorem C8_empty_and_malformed_witness :
    buildBarDomain Sample.emptyInputs.chartData = [] ∧
    (initialRender Sample.emptyInputs).bars = [] ∧
    (initialRender Sample.emptyInputs).monthGroups = [] ∧
    (initialRender Sample.emptyInputs).stationGroups = [] ∧
    renderKJ Sample.emptyInputs = none :=
  (C8_empty_and_malformed Sample.emptyInputs).1 rfl

/-- Helper: for a non-degenerate linear scale and a transform with
nonzero scale factor, d3's domain-pullback rescaling agrees pointwise
with applying the transform's vertical component to the base scale's
output: `rescaleY(y)(v) = k * y(v) + ty`. -/
theorem rescaleY_apply (t : ZoomTransform) (s : LinearScale) (hk : t.k ≠ 0)
    (hd : s.d0 ≠ s.d1) (hr : s.r0 ≠ s.r1) (v : ℚ) :
    (t.rescaleY s).apply v = t.applyY (s.apply v) := by
  obtain ⟨k, tx, ty⟩ := t
  obtain ⟨d0, d1, r0, r1⟩ := s
  simp only [ZoomTransform.rescaleY, LinearScale.invert, LinearScale.apply,
    ZoomTransform.invertY, ZoomTransform.applyY] at *
  have h1 : d1 - d0 ≠ 0 := sub_ne_zero.mpr (Ne.symm hd)
  have h2 : r1 - r0 ≠ 0 := sub_ne_zero.mpr (Ne.symm hr)
  have hden : d0 + ((r1 - ty) / k - r0) * (d1 - d0) / (r1 - r0) -
      (d0 + ((r0 - ty) / k - r0) * (d1 - d0) / (r1 - r0)) = (d1 - d0) / k := by
    field_simp
    ring
  rw [hden]
  have h3 : (d1 - d0) / k ≠ 0 := div_ne_zero h1 hk
  field_simp
  ring

/-- C1: on a zoom transform update, the handler derives the rescaled
continuous scale by applying the transform's vertical component to the
base scale's output, re-ranges the outer month band scale through the
horizontal component applied to the base range [0, width], recomputes
the middle and inner band ranges as [0, outer bandwidth] and
[0, middle bandwidth], re-applies geometry to all bars touching only
position and size (fill, opacity and the bound datum are unchanged),
and regenerates the axis and gridline scales from the rescaled scales. -/
theorem C1_zoom_update_rescales (inp : ChartInputs) (st : RenderState) (t : ZoomTransform)
    (hk : t.k ≠ 0) (hh : inp.height ≠ 0)
    (hmax : max (dataMax inp.chartData) (cropMaxOf inp.cropLimits) ≠ 0) :
    (∀ v, (zoomUpdate inp st t).y.apply v =
        t.applyY ((yScale inp.height inp.chartData inp.cropLimits).apply v)) ∧
    (zoomUpdate inp st t).y =
        t.rescaleY (yScale inp.height inp.chartData inp.cropLimits) ∧
    ((zoomUpdate inp st t).x0.r0 = t.applyX 0 ∧
     (zoomUpdate inp st t).x0.r1 = t.applyX inp.width ∧
     (zoomUpdate inp st t).x0.domain = monthLabels) ∧
    ((zoomUpdate inp st t).x1.r0 = 0 ∧
     (zoomUpdate inp st t).x1.r1 = (zoomUpdate inp st t).x0.bandwidth ∧
     (zoomUpdate inp st t).x2.r0 = 0 ∧
     (zoomUpdate inp st t).x2.r1 = (zoomUpdate inp st t).x1.bandwidth) ∧
    ((zoomUpdate inp st t).bars.map (fun p => (p.1, p.2.fill, p.2.opacity)) =
        st.bars.map (fun p => (p.1, p.2.fill, p.2.opacity))) ∧
    (drawGuard inp = true → ∀ p ∈ (zoomUpdate inp st t).bars,
      p.2.x = (zoomUpdate inp st t).x2.pos p.1.key ∧
      p.2.w = (zoomUpdate inp st t).x2.bandwidth ∧
      p.2.y = (if p.1.rainfall = 0 then (zoomUpdate inp st t).y.apply 0 - 1
               else (zoomUpdate inp st t).y.apply p.1.rainfall) ∧
      p.2.h = max 0 (if p.1.rainfall = 0 then 1
               else inp.height - (zoomUpdate inp st t).y.apply p.1.rainfall)) ∧
    ((zoomUpdate inp st t).yAxisScale = (zoomUpdate inp st t).y ∧
     (zoomUpdate inp st t).gridScale = (zoomUpdate inp st t).y ∧
     (zoomUpdate inp st t).xAxisScale = (zoomUpdate inp st t).x0) := by
  have hy0 : yMaxVal inp.chartData inp.cropLimits ≠ 0 := by
    unfold yMaxVal
    exact mul_ne_zero hmax (by norm_num)
  refine ⟨?_, rfl, ⟨rfl, rfl, rfl⟩, ⟨rfl, rfl, rfl, rfl⟩, ?_, ?_, ⟨rfl, rfl, rfl⟩⟩
  · intro v
    exact rescaleY_apply t (yScale inp.height inp.chartData inp.cropLimits) hk
      (Ne.symm hy0) hh v
  · by_cases hguard : drawGuard inp = true
    · simp only [zoomUpdate]
      rw [if_pos hguard, List.map_map]
      rfl
    · simp only [zoomUpdate]
      rw [if_neg hguard]
  · intro hguard p hp
    simp only [zoomUpdate] at hp
    rw [if_pos hguard] at hp
    obtain ⟨q, _, rfl⟩ := List.mem_map.mp hp
    exact ⟨rfl, rfl, rfl, rfl⟩

/-- C1 witness: at the concrete two-bar inputs with transform k=2,
x=3, y=4, the rescaled continuous scale applied at value 0 equals the
transform's vertical component applied to the base scale's output. -/
theorem C1_zoom_update_rescales_witness :
    ((⟨2, 3, 4⟩ : ZoomTransform).k ≠ 0 ∧
     Sample.barsInputs.height ≠ 0 ∧
     max (dataMax Sample.barsInputs.chartData) (cropMaxOf Sample.barsInputs.cropLimits) ≠ 0) ∧
    (zoomUpdate Sample.barsInputs (initialRender Sample.barsInputs) ⟨2, 3, 4⟩).y.apply 0 =
      (⟨2, 3, 4⟩ : ZoomTransform).applyY
        ((yScale Sample.barsInputs.height Sample.barsInputs.chartData
          Sample.barsInputs.cropLimits).apply 0) :=
  ⟨⟨by decide, by decide, by decide⟩,
   (C1_zoom_update_rescales Sample.barsInputs (initialRender Sample.barsInputs) ⟨2, 3, 4⟩
     (by decide) (by decide) (by decide)).1 0⟩

/-- Helper: in a sorted list, values are monotone in the index (stated
with the default-0 access used by the bisector). -/
theorem sorted_getD_le (a : List ℚ) (hs : a.Pairwise (fun p q => p ≤ q))
    {i j : ℕ} (hij : i ≤ j) (hj : j < a.length) :
    a.getD i 0 ≤ a.getD j 0 := by
  rcases eq_or_lt_of_le hij with rfl | hlt
  · exact le_refl _
  · rw [List.getD_eq_getElem _ _ (lt_trans hlt hj), List.getD_eq_getElem _ _ hj]
    exact List.pairwise_iff_getElem.mp hs i j (lt_trans hlt hj) hj hlt

/-- Helper: correctness of the fuelled bisectLeft loop on a sorted list:
the returned insertion point lies in [lo, hi], everything left of it is
strictly below `x` and everything from it up to `hi` is at least `x`. -/
theorem bisectLeftAux_spec (a : List ℚ) (x : ℚ) (hs : a.Pairwise (fun p q => p ≤ q)) :
    ∀ (fuel lo hi : ℕ), hi - lo ≤ fuel → lo ≤ hi → hi ≤ a.length →
      lo ≤ bisectLeftAux a x fuel lo hi ∧ bisectLeftAux a x fuel lo hi ≤ hi ∧
      (∀ t, lo ≤ t → t < bisectLeftAux a x fuel lo hi → a.getD t 0 < x) ∧
      (∀ t, bisectLeftAux a x fuel lo hi ≤ t → t < hi → x ≤ a.getD t 0) := by
  intro fuel
  induction fuel with
  | zero =>
    intro lo hi hf hlh hhi
    have heq : hi = lo := by omega
    subst heq
    refine ⟨le_refl _, le_refl _, ?_, ?_⟩ <;> intro t h1 h2
    · simp only [bisectLeftAux] at h2
      omega
    · simp only [bisectLeftAux] at h1
      omega
  | succ fuel ih =>
    intro lo hi hf hlh hhi
    by_cases hlo : lo < hi
    · have hdiv : (hi - lo) / 2 < hi - lo := Nat.div_lt_self (by omega) (by norm_num)
      simp only [bisectLeftAux, if_pos hlo]
      by_cases hm : a.getD (lo + (hi - lo) / 2) 0 < x
      · rw [if_pos hm]
        obtain ⟨h1, h2, h3, h4⟩ := ih (lo + (hi - lo) / 2 + 1) hi (by omega) (by omega) hhi
        refine ⟨by omega, h2, ?_, h4⟩
        intro t hlt htj
        by_cases htm : lo + (hi - lo) / 2 + 1 ≤ t
        · exact h3 t htm htj
        · have hta : a.getD t 0 ≤ a.getD (lo + (hi - lo) / 2) 0 :=
            sorted_getD_le a hs (by omega) (by omega)
          linarith
      · rw [if_neg hm]
        obtain ⟨h1, h2, h3, h4⟩ := ih lo (lo + (hi - lo) / 2) (by omega) (by omega) (by omega)
        refine ⟨h1, by omega, h3, ?_⟩
        intro t hjt hth
        by_cases htm : t < lo + (hi - lo) / 2
        · exact h4 t hjt htm
        · have hma : x ≤ a.getD (lo + (hi - lo) / 2) 0 := not_lt.mp hm
          have hat : a.getD (lo + (hi - lo) / 2) 0 ≤ a.getD t 0 :=
            sorted_getD_le a hs (by omega) (by omega)
          linarith
    · simp only [bisectLeftAux, if_neg hlo]
      refine ⟨le_refl _, by omega, ?_, ?_⟩ <;> intro t h1 h2 <;> omega

/-- Helper: the bisector's `center` index is in range and its value is a
nearest value to `x` in the sorted list; on ties in distance, the value
at the returned index is the largest tied value. -/
theorem bisectCenter_spec (a : List ℚ) (x : ℚ)
    (hs : a.Pairwise (fun p q => p ≤ q)) (hne : a ≠ []) :
    bisectCenter a x < a.length ∧
    ∀ t, t < a.length →
      |a.getD (bisectCenter a x) 0 - x| ≤ |a.getD t 0 - x| ∧
      (|a.getD t 0 - x| = |a.getD (bisectCenter a x) 0 - x| →
        a.getD t 0 ≤ a.getD (bisectCenter a x) 0) := by
  have hn : 0 < a.length := List.length_pos.mpr hne
  have hspec := bisectLeftAux_spec a x hs (a.length - 1 - 0) 0 (a.length - 1)
    (le_refl _) (by omega) (by omega)
  obtain ⟨h1, h2, h3, h4⟩ := hspec
  have hbl : bisectLeft a x 0 (a.length - 1) =
      bisectLeftAux a x (a.length - 1 - 0) 0 (a.length - 1) := rfl
  rw [← hbl] at h1 h2 h3 h4
  simp only [bisectCenter]
  by_cases hcond : 0 < bisectLeft a x 0 (a.length - 1) ∧
      x - a.getD (bisectLeft a x 0 (a.length - 1)) 0 <
        a.getD (bisectLeft a x 0 (a.length - 1) - 1) 0 - x
  · rw [if_pos hcond]
    obtain ⟨hipos, hclose⟩ := hcond
    have hl : a.getD (bisectLeft a x 0 (a.length - 1) - 1) 0 < x :=
      h3 _ (by omega) (by omega)
    have hxi : x < a.getD (bisectLeft a x 0 (a.length - 1)) 0 := by linarith
    refine ⟨by omega, ?_⟩
    intro t ht
    have habs : |a.getD (bisectLeft a x 0 (a.length - 1) - 1) 0 - x| =
        x - a.getD (bisectLeft a x 0 (a.length - 1) - 1) 0 := by
      rw [abs_of_neg (by linarith)]
      ring
    by_cases hti : t < bisectLeft a x 0 (a.length - 1)
    · have hta : a.getD t 0 ≤ a.getD (bisectLeft a x 0 (a.length - 1) - 1) 0 :=
        sorted_getD_le a hs (by omega) (by omega)
      have htx : a.getD t 0 < x := h3 t (by omega) hti
      have habs2 : |a.getD t 0 - x| = x - a.getD t 0 := by
        rw [abs_of_neg (by linarith)]
        ring
      rw [habs, habs2]
      exact ⟨by linarith, fun heq => by linarith⟩
    · have hat : a.getD (bisectLeft a x 0 (a.length - 1)) 0 ≤ a.getD t 0 :=
        sorted_getD_le a hs (by omega) ht
      have habs2 : |a.getD t 0 - x| = a.getD t 0 - x := abs_of_nonneg (by linarith)
      rw [habs, habs2]
      exact ⟨by linarith, fun heq => by linarith⟩
  · rw [if_neg hcond]
    push_neg at hcond
    refine ⟨by omega, ?_⟩
    intro t ht
    by_cases hxi : x ≤ a.getD (bisectLeft a x 0 (a.length - 1)) 0
    · have habs : |a.getD (bisectLeft a x 0 (a.length - 1)) 0 - x| =
          a.getD (bisectLeft a x 0 (a.length - 1)) 0 - x := abs_of_nonneg (by linarith)
      by_cases hti : t < bisectLeft a x 0 (a.length - 1)
      · have hipos : 0 < bisectLeft a x 0 (a.length - 1) := by omega
        have hcl := hcond hipos
        have hl : a.getD (bisectLeft a x 0 (a.length - 1) - 1) 0 < x :=
          h3 _ (by omega) (by omega)
        have hta : a.getD t 0 ≤ a.getD (bisectLeft a x 0 (a.length - 1) - 1) 0 :=
          sorted_getD_le a hs (by omega) (by omega)
        have habs2 : |a.getD t 0 - x| = x - a.getD t 0 := by
          rw [abs_of_neg (by linarith)]
          ring
        rw [habs, habs2]
        constructor
        · linarith
        · intro heq
          linarith
      · have hat : a.getD (bisectLeft a x 0 (a.length - 1)) 0 ≤ a.getD t 0 :=
          sorted_getD_le a hs (by omega) ht
        have habs2 : |a.getD t 0 - x| = a.getD t 0 - x := abs_of_nonneg (by linarith)
        rw [habs, habs2]
        exact ⟨by linarith, fun heq => by linarith⟩
    · push_neg at hxi
      have hend : bisectLeft a x 0 (a.length - 1) = a.length - 1 := by
        by_contra hc
        have : x ≤ a.getD (bisectLeft a x 0 (a.length - 1)) 0 :=
          h4 _ (le_refl _) (by omega)
        linarith
      have habs : |a.getD (bisectLeft a x 0 (a.length - 1)) 0 - x| =
          x - a.getD (bisectLeft a x 0 (a.length - 1)) 0 := by
        rw [abs_of_neg (by linarith)]
        ring
      have hta : a.getD t 0 ≤ a.getD (bisectLeft a x 0 (a.length - 1)) 0 := by
        rw [hend]
        exact sorted_getD_le a hs (by omega) (by omega)
      have habs2 : |a.getD t 0 - x| = x - a.getD t 0 := by
        rw [abs_of_neg (by linarith)]
        ring
      rw [habs, habs2]
      exact ⟨by linarith, fun heq => by linarith⟩

/-- Helper: transfer of nearest-ness from the raw position to the
JavaScript-rounded position.  If `u` is a nearest integer value to `x`
(and the largest such on distance ties), then `u` is also a nearest
integer value to `Math.round(x)`. -/
theorem nearest_int_round (x u v : ℚ) (hu : ((u.num : ℤ) : ℚ) = u) (hv : ((v.num : ℤ) : ℚ) = v)
    (h1 : |u - x| ≤ |v - x|) (h2 : |v - x| = |u - x| → v ≤ u) :
    |u - ((jsRound x : ℤ) : ℚ)| ≤ |v - ((jsRound x : ℤ) : ℚ)| := by
  have hmx1 : ((jsRound x : ℤ) : ℚ) ≤ x + 1 / 2 := Int.floor_le (x + 1 / 2)
  have hmx2 : x + 1 / 2 < ((jsRound x : ℤ) : ℚ) + 1 := Int.lt_floor_add_one (x + 1 / 2)
  by_contra hcon
  push_neg at hcon
  have hgap : |v - ((jsRound x : ℤ) : ℚ)| + 1 ≤ |u - ((jsRound x : ℤ) : ℚ)| := by
    have hcastu : |u - ((jsRound x : ℤ) : ℚ)| = ((|u.num - jsRound x| : ℤ) : ℚ) := by
      rw [Int.cast_abs, Int.cast_sub, hu]
    have hcastv : |v - ((jsRound x : ℤ) : ℚ)| = ((|v.num - jsRound x| : ℤ) : ℚ) := by
      rw [Int.cast_abs, Int.cast_sub, hv]
    rw [hcastu, hcastv] at hcon ⊢
    have : |v.num - jsRound x| < |u.num - jsRound x| := by exact_mod_cast hcon
    have : |v.num - jsRound x| + 1 ≤ |u.num - jsRound x| := by omega
    exact_mod_cast this
  have c1 : |u - ((jsRound x : ℤ) : ℚ)| ≤ |u - x| + |x - ((jsRound x : ℤ) : ℚ)| :=
    abs_sub_le u x ((jsRound x : ℤ) : ℚ)
  have c2 : |v - x| ≤ |v - ((jsRound x : ℤ) : ℚ)| + |((jsRound x : ℤ) : ℚ) - x| :=
    abs_sub_le v ((jsRound x : ℤ) : ℚ) x
  have hmx : |((jsRound x : ℤ) : ℚ) - x| ≤ 1 / 2 :=
    abs_le.mpr ⟨by linarith, by linarith⟩
  have hxm : |x - ((jsRound x : ℤ) : ℚ)| ≤ 1 / 2 := by
    rw [abs_sub_comm]
    exact hmx
  have e1 : |u - x| = |v - x| := le_antisymm h1 (by linarith)
  have hvu : v ≤ u := h2 e1.symm
  have hmx_eq : |((jsRound x : ℤ) : ℚ) - x| = 1 / 2 := by
    have hge : 1 / 2 ≤ |((jsRound x : ℤ) : ℚ) - x| := by linarith
    linarith
  have hm_eq : ((jsRound x : ℤ) : ℚ) = x + 1 / 2 := by
    rcases (abs_eq (by norm_num : (0 : ℚ) ≤ 1 / 2)).mp hmx_eq with h | h
    · linarith
    · linarith
  have hveq : |v - x| = |v - ((jsRound x : ℤ) : ℚ)| + 1 / 2 := by linarith
  have hvm : ((jsRound x : ℤ) : ℚ) ≤ v := by
    by_contra hcon2
    push_neg at hcon2
    have habsvm : |v - ((jsRound x : ℤ) : ℚ)| = ((jsRound x : ℤ) : ℚ) - v := by
      rw [abs_of_neg (by linarith)]
      ring
    rcases le_or_lt x v with hxv | hxv
    · have habsvx : |v - x| = v - x := abs_of_nonneg (by linarith)
      rw [habsvx, habsvm, hm_eq] at hveq
      linarith
    · have habsvx : |v - x| = x - v := by
        rw [abs_of_neg (by linarith)]
        ring
      rw [habsvx, habsvm, hm_eq] at hveq
      linarith
  have hux : u ≤ x := by
    have hueq : |u - ((jsRound x : ℤ) : ℚ)| = |u - x| + 1 / 2 := by linarith
    by_contra hcon2
    push_neg at hcon2
    have habsux : |u - x| = u - x := abs_of_nonneg (by linarith)
    rcases le_or_lt u ((jsRound x : ℤ) : ℚ) with hum | hum
    · have habsum : |u - ((jsRound x : ℤ) : ℚ)| = ((jsRound x : ℤ) : ℚ) - u := by
        rcases eq_or_lt_of_le hum with heq | hlt
        · rw [heq]
          simp
        · rw [abs_of_neg (by linarith)]
          ring
      rw [habsum, habsux, hm_eq] at hueq
      linarith
    · have habsum : |u - ((jsRound x : ℤ) : ℚ)| = u - ((jsRound x : ℤ) : ℚ) :=
        abs_of_nonneg (by linarith)
      rw [habsum, habsux, hm_eq] at hueq
      linarith
  linarith

/-- Helper: the inverted day of a pointer inside the plot lies in the
day domain [1, 31]. -/
theorem hoverDay_bounds (innerW mx : ℚ) (hW : 0 < innerW) (h0 : 0 ≤ mx)
    (h1 : mx ≤ innerW) :
    1 ≤ hoverDay innerW mx ∧ hoverDay innerW mx ≤ 31 := by
  unfold hoverDay xScale LinearScale.invert
  simp only
  constructor
  · have : 0 ≤ (mx - 0) * (31 - 1) / (innerW - 0) := by
      apply div_nonneg
      · nlinarith
      · linarith
    linarith
  · have : (mx - 0) * (31 - 1) / (innerW - 0) ≤ 30 := by
      rw [div_le_iff₀ (by linarith)]
      nlinarith
    linarith

/-- Helper: for a day value already in [1, 31], the clamp around the
rounded day is the identity and the result stays in [1, 31]. -/
theorem clamp_jsRound (day : ℚ) (hlo : 1 ≤ day) (hhi : day ≤ 31) :
    max 1 (min 31 (jsRound day)) = jsRound day ∧
    1 ≤ jsRound day ∧ jsRound day ≤ 31 := by
  have h1 : (1 : ℤ) ≤ jsRound day := by
    apply Int.le_floor.mpr
    push_cast
    linarith
  have h2 : jsRound day ≤ 31 := by
    have : jsRound day < 32 := by
      apply Int.floor_lt.mpr
      push_cast
      linarith
    omega
  rw [min_eq_right h2, max_eq_right h1]
  exact ⟨rfl, h1, h2⟩

/-- Helper: the reduce step of the hover handler returns an element of
the candidate list that minimizes the pixel distance. -/
theorem foldl_min_spec (rest : List Candidate) : ∀ c : Candidate,
    (rest.foldl (fun a b => if a.dy < b.dy then a else b) c ∈ c :: rest) ∧
    (rest.foldl (fun a b => if a.dy < b.dy then a else b) c).dy ≤ c.dy ∧
    ∀ q ∈ rest, (rest.foldl (fun a b => if a.dy < b.dy then a else b) c).dy ≤ q.dy := by
  induction rest with
  | nil =>
    intro c
    refine ⟨by simp, le_refl _, ?_⟩
    intro q hq
    simp at hq
  | cons b rest ih =>
    intro c
    simp only [List.foldl_cons]
    obtain ⟨ihmem, ihle, ihall⟩ := ih (if c.dy < b.dy then c else b)
    have hstep_c : (if c.dy < b.dy then c else b).dy ≤ c.dy := by
      by_cases h : c.dy < b.dy
      · rw [if_pos h]
      · rw [if_neg h]
        exact not_lt.mp h
    have hstep_b : (if c.dy < b.dy then c else b).dy ≤ b.dy := by
      by_cases h : c.dy < b.dy
      · rw [if_pos h]
        exact h.le
      · rw [if_neg h]
    refine ⟨?_, le_trans ihle hstep_c, ?_⟩
    · rcases List.mem_cons.mp ihmem with heq | hmem
      · rw [heq]
        by_cases h : c.dy < b.dy
        · rw [if_pos h]
          simp
        · rw [if_neg h]
          simp
      · exact List.mem_cons_of_mem _ (List.mem_cons_of_mem _ hmem)
    · intro q hq
      rcases List.mem_cons.mp hq with rfl | hmem
      · exact le_trans ihle hstep_b
      · exact ihall q hmem

/-- Helper: the hover candidate of one series is one of its samples and
its day is nearest (among that series' samples) to the JavaScript-rounded
inverted day; its pixel distance is measured through the supplied
continuous scale. -/
theorem candidateFor_spec (y : LinearScale) (my day : ℚ) (s : TSeries)
    (hne : s.values ≠ [])
    (hsort : (s.values.map (fun v => v.day)).Pairwise (fun p q => p ≤ q))
    (hint : ∀ v ∈ s.values, (v.day).den = 1) :
    (∃ v ∈ s.values, candidateFor y my day s =
        ⟨v.day, v.temp, s.key, |y.apply v.temp - my|⟩) ∧
    ∀ u ∈ s.values,
      |(candidateFor y my day s).day - ((jsRound day : ℤ) : ℚ)| ≤
        |u.day - ((jsRound day : ℤ) : ℚ)| := by
  have hdne : s.values.map (fun v => v.day) ≠ [] := by
    intro h
    exact hne (List.map_eq_nil_iff.mp h)
  obtain ⟨hcl, hcnear⟩ := bisectCenter_spec (s.values.map (fun v => v.day)) day hsort hdne
  have hcl' : bisectCenter (s.values.map (fun v => v.day)) day < s.values.length := by
    rw [List.length_map] at hcl
    exact hcl
  have hidx : min (s.values.length - 1) (bisectCenter (s.values.map (fun v => v.day)) day) =
      bisectCenter (s.values.map (fun v => v.day)) day :=
    min_eq_right (by omega)
  have hcf : candidateFor y my day s =
      ⟨(s.values.getD (bisectCenter (s.values.map (fun v => v.day)) day) ⟨0, 0⟩).day,
       (s.values.getD (bisectCenter (s.values.map (fun v => v.day)) day) ⟨0, 0⟩).temp,
       s.key,
       |y.apply (s.values.getD (bisectCenter (s.values.map (fun v => v.day)) day) ⟨0, 0⟩).temp -
         my|⟩ := by
    simp only [candidateFor, hidx]
  have hvmem : s.values.getD (bisectCenter (s.values.map (fun v => v.day)) day) ⟨0, 0⟩ ∈
      s.values := by
    rw [List.getD_eq_getElem _ _ hcl']
    exact List.getElem_mem _
  have hdayeq : (s.values.map (fun v => v.day)).getD
      (bisectCenter (s.values.map (fun v => v.day)) day) 0 =
      (s.values.getD (bisectCenter (s.values.map (fun v => v.day)) day) ⟨0, 0⟩).day := by
    rw [List.getD_eq_getElem _ _ hcl, List.getD_eq_getElem _ _ hcl', List.getElem_map]
  refine ⟨⟨_, hvmem, hcf⟩, ?_⟩
  intro u hu
  obtain ⟨t, htlen, htu⟩ := List.mem_iff_getElem.mp hu
  have htlen' : t < (s.values.map (fun v => v.day)).length := by
    rw [List.length_map]
    exact htlen
  have hudays : (s.values.map (fun v => v.day)).getD t 0 = u.day := by
    rw [List.getD_eq_getElem _ _ htlen', List.getElem_map, htu]
  obtain ⟨hnear, htie⟩ := hcnear t htlen'
  rw [hcf]
  simp only
  rw [← hdayeq, ← hudays]
  apply nearest_int_round day _ _ ?_ ?_ hnear htie
  · rw [hdayeq]
    exact (Rat.den_eq_one_iff _).mp (hint _ hvmem)
  · rw [hudays]
    exact (Rat.den_eq_one_iff _).mp (hint u hu)

/-- Helper: the non-focused hover candidates are presented sorted by
state key, and are exactly the candidates whose state differs from the
focused one. -/
theorem hoverOthers_spec (innerW : ℚ) (y : LinearScale) (series : List TSeries)
    (mx my : ℚ) :
    (hoverOthers innerW y series mx my).Pairwise (fun a b => a.state ≤ b.state) ∧
    (hoverOthers innerW y series mx my).Perm
      ((hoverCandidates innerW y series mx my).filter
        (fun c => decide (c.state ≠ (hoverFocused innerW y series mx my).state))) := by
  constructor
  · have hs := @List.sorted_mergeSort Candidate
      (fun a b => decide (a.state ≤ b.state))
      (fun a b c hab hbc => by
        simp only [decide_eq_true_eq] at hab hbc ⊢
        exact le_trans hab hbc)
      (fun a b => by
        simp only [Bool.or_eq_true, decide_eq_true_eq]
        exact le_total a.state b.state)
      ((hoverCandidates innerW y series mx my).filter
        (fun c => decide (c.state ≠ (hoverFocused innerW y series mx my).state)))
    exact hs.imp (fun h => of_decide_eq_true h)
  · exact List.mergeSort_perm _ _

/-- C3: for a pointer inside the plot, the hover handler inverts the
continuous day mapping, clamps the rounded day to [1, 31] (the clamp is
the identity there); it produces one candidate per visible series, each
a genuine sample of its series whose day is nearest to the clamped
rounded day, with pixel y (and hence the distance dy) computed through
the current continuous value scale; the focused candidate minimizes
|pixelY - pointerY| over all candidates; and the other candidates are
reported alongside, sorted by state key. -/
theorem C3_hover_resolution (innerW : ℚ) (y : LinearScale) (series : List TSeries)
    (mx my : ℚ) (hW : 0 < innerW) (hmx0 : 0 ≤ mx) (hmx1 : mx ≤ innerW)
    (hne : series ≠ [])
    (hsne : ∀ s ∈ series, s.values ≠ [])
    (hsort : ∀ s ∈ series, (s.values.map (fun v => v.day)).Pairwise (fun p q => p ≤ q))
    (hint : ∀ s ∈ series, ∀ v ∈ s.values, (v.day).den = 1) :
    mousemove innerW y series mx my = some
      ⟨hoverFocused innerW y series mx my, hoverOthers innerW y series mx my,
       hoverClampedDay innerW mx,
       (xScale innerW).apply ((hoverClampedDay innerW mx : ℤ) : ℚ),
       y.apply (hoverFocused innerW y series mx my).temp,
       hoverCandidates innerW y series mx my⟩ ∧
    (hoverClampedDay innerW mx = jsRound (hoverDay innerW mx) ∧
     1 ≤ hoverClampedDay innerW mx ∧ hoverClampedDay innerW mx ≤ 31) ∧
    hoverCandidates innerW y series mx my =
      series.map (candidateFor y my (hoverDay innerW mx)) ∧
    (∀ s ∈ series,
      (∃ v ∈ s.values, candidateFor y my (hoverDay innerW mx) s =
          ⟨v.day, v.temp, s.key, |y.apply v.temp - my|⟩) ∧
      (∀ u ∈ s.values,
        |(candidateFor y my (hoverDay innerW mx) s).day -
            ((hoverClampedDay innerW mx : ℤ) : ℚ)| ≤
          |u.day - ((hoverClampedDay innerW mx : ℤ) : ℚ)|)) ∧
    (hoverFocused innerW y series mx my ∈ hoverCandidates innerW y series mx my ∧
     ∀ c ∈ hoverCandidates innerW y series mx my,
       (hoverFocused innerW y series mx my).dy ≤ c.dy) ∧
    ((hoverOthers innerW y series mx my).Pairwise (fun a b => a.state ≤ b.state) ∧
     (hoverOthers innerW y series mx my).Perm
       ((hoverCandidates innerW y series mx my).filter
         (fun c => decide (c.state ≠ (hoverFocused innerW y series mx my).state)))) := by
  obtain ⟨hd1, hd31⟩ := hoverDay_bounds innerW mx hW hmx0 hmx1
  obtain ⟨hclamp, hcl1, hcl31⟩ := clamp_jsRound (hoverDay innerW mx) hd1 hd31
  have hclamp' : hoverClampedDay innerW mx = jsRound (hoverDay innerW mx) := hclamp
  refine ⟨?_, ⟨hclamp', by rw [hclamp']; exact hcl1, by rw [hclamp']; exact hcl31⟩, rfl, ?_, ?_,
    hoverOthers_spec innerW y series mx my⟩
  · unfold mousemove
    rw [if_neg]
    intro hempty
    exact hne (List.isEmpty_iff.mp hempty)
  · intro s hs
    obtain ⟨hex, hnear⟩ :=
      candidateFor_spec y my (hoverDay innerW mx) s (hsne s hs) (hsort s hs) (hint s hs)
    refine ⟨hex, ?_⟩
    rw [hclamp']
    exact hnear
  · cases series with
    | nil => exact absurd rfl hne
    | cons s ss =>
      have hcand : hoverCandidates innerW y (s :: ss) mx my =
          candidateFor y my (hoverDay innerW mx) s ::
            ss.map (candidateFor y my (hoverDay innerW mx)) := rfl
      have hfoc : hoverFocused innerW y (s :: ss) mx my =
          (ss.map (candidateFor y my (hoverDay innerW mx))).foldl
            (fun a b => if a.dy < b.dy then a else b)
            (candidateFor y my (hoverDay innerW mx) s) := rfl
      obtain ⟨hmem, hlec, hall⟩ :=
        foldl_min_spec (ss.map (candidateFor y my (hoverDay innerW mx)))
          (candidateFor y my (hoverDay innerW mx) s)
      rw [hcand, hfoc]
      refine ⟨hmem, ?_⟩
      intro c hc
      rcases List.mem_cons.mp hc with rfl | hcin
      · exact hlec
      · exact hall c hcin

/-- C3 witness: with two concrete series (days 1 and 3 with temps 0 and
10, and a single day-2 point) and the pointer at day 4 near the bottom
of the plot, the focused candidate is one of the candidates and
minimizes the pixel distance. -/
theorem C3_hover_resolution_witness :
    (0 : ℚ) < 30 ∧
    (hoverFocused 30 ⟨0, 10, 100, 0⟩ [Sample.seriesA, Sample.seriesB] 3 100 ∈
        hoverCandidates 30 ⟨0, 10, 100, 0⟩ [Sample.seriesA, Sample.seriesB] 3 100 ∧
     ∀ c ∈ hoverCandidates 30 ⟨0, 10, 100, 0⟩ [Sample.seriesA, Sample.seriesB] 3 100,
       (hoverFocused 30 ⟨0, 10, 100, 0⟩ [Sample.seriesA, Sample.seriesB] 3 100).dy ≤ c.dy) :=
  ⟨by decide,
   (C3_hover_resolution 30 ⟨0, 10, 100, 0⟩ [Sample.seriesA, Sample.seriesB] 3 100
     (by decide) (by decide) (by decide) (by decide) (by decide) (by decide)
     (by decide)).2.2.2.2.1⟩
